import Mathlib

/-!
Verification development for the MasterBlog API backend
(`src/backend/backend_app.py`): a shallow embedding of the in-memory
post store and its HTTP handlers, with theorems checking the
natural-language specification against the code.

Python dictionaries `{"id": ..., "title": ..., "content": ...}` are
embedded as the structure `Post`; the store (the global `POSTS` list) is
passed explicitly as a `List Post`.  Fallible Python code (raising
`KeyError` / `TypeError`) is embedded with `Option` / `Except`.
Python string `.lower()` is embedded with `String.toLower`, which agrees
with Python on ASCII text (all text used in this development is ASCII).
-/

/-- Post record: a blog post dictionary with its three fields.  Every
post constructed by the code carries an integer id. -/
structure Post where
  id : Int
  title : String
  content : String
deriving DecidableEq, Repr

/-- RawPost record: a post dictionary whose `id` key may be missing
(`none`), used to model `get_next_id`'s failure branch, which catches
`KeyError` for posts lacking an id. -/
structure RawPost where
  id : Option Int
  title : String
  content : String
deriving DecidableEq, Repr

/-- View of a well-formed post as a raw dictionary (its id present). -/
def Post.toRaw (p : Post) : RawPost :=
  ⟨some p.id, p.title, p.content⟩

/-- Seed data: the initial value of the global `POSTS` list. -/
def POSTS : List Post :=
  [⟨1, "First post", "This is the first post."⟩,
   ⟨2, "Second post", "This is the second post."⟩]

/-- Collects `post["id"]` for each post, failing (like the generator
`post["id"] for post in posts`) if any post lacks the key. -/
def idsOf : List RawPost → Option (List Int)
  | [] => some []
  | p :: ps =>
    match p.id, idsOf ps with
    | some i, some is => some (i :: is)
    | _, _ => none

/-- Maximum of a list of integers (Python `max` on a non-empty
iterable); the `[]` case is never reached by `get_next_id`. -/
def maxOf : List Int → Int
  | [] => 0
  | i :: is => is.foldl max i

/-- Embedding of `get_next_id(posts)`: `1` on an empty store, otherwise
`max(post["id"] for post in posts) + 1`, re-raised as a `KeyError` with
a fixed message when a post lacks the id key. -/
def get_next_id (posts : List RawPost) : Except String Int :=
  match posts with
  | [] => Except.ok 1
  | _ :: _ =>
    match idsOf posts with
    | none => Except.error "Could not determine next ID due to invalid post data."
    | some ids => Except.ok (maxOf ids + 1)

/-- Value computed by `get_next_id` on a store of well-formed posts
(where it cannot fail): `1` if empty, else max id `+ 1`.  The agreement
with `get_next_id` is the lemma `get_next_id_toRaw`. -/
def nextIdVal (posts : List Post) : Int :=
  match posts with
  | [] => 1
  | _ :: _ => maxOf (posts.map Post.id) + 1

/-- Embedding of `get_blog_post_by_id(post_id)`: linear scan of the
store, returning the first post whose `"id"` equals `post_id`. -/
def get_blog_post_by_id (posts : List Post) (post_id : Int) : Option Post :=
  match posts with
  | [] => none
  | p :: ps => if p.id = post_id then some p else get_blog_post_by_id ps post_id

/-- Embedding of `add_blog_post(title, content)`: builds a post with the
id generated by `get_next_id(POSTS)` (on a store of well-formed posts
this is `nextIdVal`; see `get_next_id_toRaw`), appends it to the store,
and returns it together with the new store. -/
def add_blog_post (posts : List Post) (title content : String) : Post × List Post :=
  let i := nextIdVal posts
  let post : Post := ⟨i, title, content⟩
  (post, posts ++ [post])

/-- Runs a sequence of `add_blog_post` calls (title/content pairs) on a
store, returning the final store and the list of ids returned by the
successive inserts, in order. -/
def insertSeq (posts : List Post) : List (String × String) → List Post × List Int
  | [] => (posts, [])
  | (t, c) :: rest =>
    let r := add_blog_post posts t c
    let s := insertSeq r.2 rest
    (s.1, r.1.id :: s.2)

/-- Dictionary lookup `post[key]` for the string-valued keys: `none`
models the `KeyError` (or, for the integer-valued `"id"` key, the
`TypeError` from `.lower()`) raised on any key other than `"title"` and
`"content"`. -/
def postKey (key : String) (p : Post) : Option String :=
  if key = "title" then some p.title
  else if key = "content" then some p.content
  else none

/-- Decides whether `needle` occurs at the head of `hay`. -/
def subAt : List Char → List Char → Bool
  | [], _ => true
  | _ :: _, [] => false
  | a :: as, b :: bs => a == b && subAt as bs

/-- Decides whether `needle` occurs contiguously anywhere in `hay`
(Python's `needle in hay` on strings). -/
def containsChars (needle : List Char) : List Char → Bool
  | [] => needle.isEmpty
  | c :: rest => subAt needle (c :: rest) || containsChars needle rest

/-- Python `needle in hay` for strings. -/
def strContains (hay needle : String) : Bool :=
  containsChars needle.data hay.data

/-- Case-insensitive substring test `needle.lower() in hay.lower()`. -/
def containsCI (hay needle : String) : Bool :=
  strContains hay.toLower needle.toLower

/-- Collects `post[key]` for each post of the store, failing (like the
list comprehensions iterating over `POSTS`) if the key is unsupported
for any post. -/
def keyVals (key : String) : List Post → Option (List String)
  | [] => some []
  | p :: ps =>
    match postKey key p, keyVals key ps with
    | some v, some vs => some (v :: vs)
    | _, _ => none

/-- Embedding of `find_str(search_str, search_key)`: `[]` when either
argument is falsy (the empty string), otherwise the posts whose
`search_key` field contains `search_str` case-insensitively; `none`
models the exception raised by `post[search_key]` when the key is
unsupported and the store is non-empty. -/
def find_str (posts : List Post) (search_str search_key : String) : Option (List Post) :=
  if search_str = "" || search_key = "" then some []
  else
    match keyVals search_key posts with
    | none => none
    | some _ =>
      some (posts.filter fun p => containsCI ((postKey search_key p).getD "") search_str)

/-- Embedding of `find_in_title(title)` (= `find_str(title, 'title')`;
the `"title"` key is always present, so the lookup never fails and the
`getD` default is never used). -/
def find_in_title (posts : List Post) (title : String) : List Post :=
  (find_str posts title "title").getD []

/-- Embedding of `find_in_content(content)` (= `find_str(content,
'content')`). -/
def find_in_content (posts : List Post) (content : String) : List Post :=
  (find_str posts content "content").getD []

/-- Embedding of `sort_posts_by_(key, is_desc)`:
`sorted(POSTS, key=lambda d: d[key], reverse=is_desc)`.  Python's
`sorted` is a stable sort; it is embedded with `List.insertionSort`,
which is stable, ordered by the string value of `d[key]` (reversed
comparisons for `reverse=True`, which in Python sorts descending while
keeping ties in original order).  As in `find_str`, `none` models the
exception raised on a key other than `"title"`/`"content"` (the only
keys the handler passes). -/
def sort_posts_by_ (posts : List Post) (key : String) (is_desc : Bool) :
    Option (List Post) :=
  match keyVals key posts with
  | none => none
  | some _ =>
    some (posts.insertionSort fun a b =>
      if is_desc then ((postKey key b).getD "") ≤ ((postKey key a).getD "")
      else ((postKey key a).getD "") ≤ ((postKey key b).getD ""))

/-- String value of `post[key]` for the keys the sort handler passes
(the default is never used for `"title"`/`"content"`). -/
def postVal (key : String) (p : Post) : String :=
  (postKey key p).getD ""

/-- HTTP response bodies produced by the handlers: a JSON array of
posts, a single JSON post, or a JSON message object, each with a status
code. -/
inductive Resp
  | postsR (status : Nat) (posts : List Post)
  | postR (status : Nat) (post : Post)
  | msgR (status : Nat) (message : String)
deriving DecidableEq, Repr

/-- Truthiness of `request.args.get(...)`: `None` (absent) and the empty
string are falsy. -/
def truthy : Option String → Bool
  | none => false
  | some s => !(s == "")

/-- Embedding of the `GET /api/posts` handler `get_posts`: if both the
`sort` and `direction` query parameters are truthy they are validated
and the sorted list (200) or an error message (400) is returned;
otherwise the store is returned unsorted with 200. -/
def get_posts (posts : List Post) (sort dir : Option String) : Resp :=
  if truthy sort && truthy dir then
    let s := sort.getD ""
    let d := dir.getD ""
    if (s == "title" || s == "content") && (d == "asc" || d == "desc") then
      Resp.postsR 200 ((sort_posts_by_ posts s (d == "desc")).getD [])
    else
      Resp.msgR 400 "Wrong sort or direction value"
  else
    Resp.postsR 200 posts

/-- Removes the first element of the list equal to `p` (Python
`list.remove`; leaves the list unchanged when `p` is absent, though the
handler only calls it with a member). -/
def removeFirstEq (posts : List Post) (p : Post) : List Post :=
  match posts with
  | [] => []
  | q :: qs => if q = p then qs else q :: removeFirstEq qs p

/-- Embedding of the `DELETE /api/posts/<int:post_id>` handler
`delete_post`: looks the post up by id, removes it and answers 200 with
a success message, or answers 404 with a not-found message leaving the
store unchanged.  Returns the response together with the store after
the request. -/
def delete_post (posts : List Post) (post_id : Int) : Resp × List Post :=
  match get_blog_post_by_id posts post_id with
  | some p =>
    (Resp.msgR 200 ("Post with id " ++ toString post_id ++ " has been deleted successfully."),
     removeFirstEq posts p)
  | none =>
    (Resp.msgR 404 ("Post with id= " ++ toString post_id ++ " not found"), posts)

/-- Replaces the title and content of the first post whose id is
`post_id` (the in-place dictionary mutation of `update_post`, which
mutates the post object returned by `get_blog_post_by_id`). -/
def updateFirst (posts : List Post) (post_id : Int) (t c : String) : List Post :=
  match posts with
  | [] => []
  | p :: ps =>
    if p.id = post_id then { p with title := t, content := c } :: ps
    else p :: updateFirst ps post_id t c

/-- Embedding of the `PUT /api/posts/<int:post_id>` handler
`update_post`: looks the post up by id; if found, overwrites its title
and content with the request body's values and answers 200 with the
updated post, otherwise answers 404 leaving the store unchanged. -/
def update_post (posts : List Post) (post_id : Int) (t c : String) : Resp × List Post :=
  match get_blog_post_by_id posts post_id with
  | some p =>
    (Resp.postR 200 { p with title := t, content := c }, updateFirst posts post_id t c)
  | none =>
    (Resp.msgR 404 ("Post with id= " ++ toString post_id ++ " not found"), posts)

/-- Embedding of the `GET /api/posts/search` handler `get_posts_search`:
a truthy `title` parameter triggers a title search (200); otherwise a
truthy `content` parameter triggers a content search (200); otherwise
the response is 404 with an empty array body. -/
def get_posts_search (posts : List Post) (title content : Option String) : Resp :=
  if truthy title then Resp.postsR 200 (find_in_title posts (title.getD ""))
  else if truthy content then Resp.postsR 200 (find_in_content posts (content.getD ""))
  else Resp.postsR 404 []

/-! ### Helper lemmas about integer maxima -/

theorem le_foldl_max (l : List Int) (a : Int) : a ≤ l.foldl max a := by
  induction l generalizing a with
  | nil => exact le_refl a
  | cons x xs ih => exact le_trans (le_max_left a x) (ih (max a x))

theorem mem_le_foldl_max (l : List Int) (a x : Int) (hx : x ∈ l) : x ≤ l.foldl max a := by
  induction l generalizing a with
  | nil => cases hx
  | cons y ys ih =>
    rcases List.mem_cons.mp hx with h | h
    · subst h; exact le_trans (le_max_right a x) (le_foldl_max ys (max a x))
    · exact ih (max a y) h

theorem foldl_max_mem (l : List Int) (a : Int) : l.foldl max a = a ∨ l.foldl max a ∈ l := by
  induction l generalizing a with
  | nil => exact Or.inl rfl
  | cons x xs ih =>
    rcases ih (max a x) with h | h
    · rcases max_choice a x with hm | hm
      · exact Or.inl (by rw [List.foldl_cons, h, hm])
      · refine Or.inr ?_
        rw [List.foldl_cons, h, hm]
        exact List.mem_cons_self _ _
    · exact Or.inr (List.mem_cons_of_mem x h)

theorem maxOf_mem_le {l : List Int} {x : Int} (hx : x ∈ l) : x ≤ maxOf l := by
  cases l with
  | nil => cases hx
  | cons i is =>
    rcases List.mem_cons.mp hx with h | h
    · subst h; exact le_foldl_max is x
    · exact mem_le_foldl_max is i x h

theorem maxOf_mem {l : List Int} (h : l ≠ []) : maxOf l ∈ l := by
  cases l with
  | nil => exact absurd rfl h
  | cons i is =>
    rcases foldl_max_mem is i with h1 | h1
    · simp only [maxOf, h1]
      exact List.mem_cons_self _ _
    · exact List.mem_cons_of_mem i h1

/-! ### Helper lemmas about `idsOf` and `get_next_id` -/

theorem idsOf_eq_none_of_mem {posts : List RawPost} {p : RawPost}
    (hp : p ∈ posts) (h : p.id = none) : idsOf posts = none := by
  induction posts with
  | nil => cases hp
  | cons q qs ih =>
    rcases List.mem_cons.mp hp with hq | hq
    · subst hq
      simp [idsOf, h]
    · have hqs := ih hq
      simp only [idsOf, hqs]
      cases q.id <;> rfl

theorem idsOf_eq_some_of_forall {posts : List RawPost}
    (h : ∀ p ∈ posts, p.id ≠ none) :
    ∃ ids, idsOf posts = some ids ∧ ∀ i, i ∈ ids ↔ ∃ p ∈ posts, p.id = some i := by
  induction posts with
  | nil => exact ⟨[], rfl, by simp⟩
  | cons q qs ih =>
    obtain ⟨ids, hids, hiff⟩ := ih fun p hp => h p (List.mem_cons_of_mem q hp)
    have hq : q.id ≠ none := h q (List.mem_cons_self q qs)
    obtain ⟨i, hi⟩ := Option.ne_none_iff_exists'.mp hq
    refine ⟨i :: ids, by simp [idsOf, hi, hids], fun j => ?_⟩
    constructor
    · intro hj
      rcases List.mem_cons.mp hj with hj | hj
      · exact ⟨q, List.mem_cons_self q qs, by rw [hi, hj]⟩
      · obtain ⟨p, hp, hpj⟩ := (hiff j).mp hj
        exact ⟨p, List.mem_cons_of_mem q hp, hpj⟩
    · rintro ⟨p, hp, hpj⟩
      rcases List.mem_cons.mp hp with hpq | hpq
      · subst hpq
        rw [hi] at hpj
        exact List.mem_cons.mpr (Or.inl (Option.some_injective _ hpj).symm)
      · exact List.mem_cons_of_mem i ((hiff j).mpr ⟨p, hpq, hpj⟩)

/-- C4: `get_next_id` returns 1 on an empty store and max id + 1 on a
non-empty store of posts that all carry an id, and fails with the
internal `KeyError` message exactly when some stored post lacks an id
field. -/
theorem get_next_id_spec (posts : List RawPost) :
    (posts = [] → get_next_id posts = Except.ok 1) ∧
    ((∃ p ∈ posts, p.id = none) →
      get_next_id posts =
        Except.error "Could not determine next ID due to invalid post data.") ∧
    ((∀ p ∈ posts, p.id ≠ none) → posts ≠ [] →
      ∃ m, get_next_id posts = Except.ok (m + 1) ∧
        (∃ p ∈ posts, p.id = some m) ∧
        ∀ p ∈ posts, ∀ i, p.id = some i → i ≤ m) := by
  refine ⟨fun h => by subst h; rfl, ?_, ?_⟩
  · rintro ⟨p, hp, hpid⟩
    have hnone := idsOf_eq_none_of_mem hp hpid
    cases posts with
    | nil => cases hp
    | cons q qs => simp [get_next_id, hnone]
  · intro hall hne
    obtain ⟨ids, hids, hiff⟩ := idsOf_eq_some_of_forall hall
    cases posts with
    | nil => exact absurd rfl hne
    | cons q qs =>
      have hq : q.id ≠ none := hall q (List.mem_cons_self q qs)
      obtain ⟨i0, hi0⟩ := Option.ne_none_iff_exists'.mp hq
      have hi0mem : i0 ∈ ids := (hiff i0).mpr ⟨q, List.mem_cons_self q qs, hi0⟩
      have hidsne : ids ≠ [] := List.ne_nil_of_mem hi0mem
      refine ⟨maxOf ids, by simp [get_next_id, hids], (hiff (maxOf ids)).mp (maxOf_mem hidsne),
        fun p hp i hpi => maxOf_mem_le ((hiff i).mpr ⟨p, hp, hpi⟩)⟩

/-- Witness for C4: the empty-store and non-empty-store conclusions at
concrete inputs. -/
theorem get_next_id_spec_witness :
    (([] : List RawPost) = [] → get_next_id [] = Except.ok 1) ∧
    (([] : List RawPost) = [] ∧ get_next_id [] = Except.ok 1) ∧
    ((∀ p ∈ [({ id := some 5, title := "a", content := "b" } : RawPost)], p.id ≠ none) ∧
      ∃ m, get_next_id [({ id := some 5, title := "a", content := "b" } : RawPost)] =
          Except.ok (m + 1) ∧
        (∃ p ∈ [({ id := some 5, title := "a", content := "b" } : RawPost)], p.id = some m) ∧
        ∀ p ∈ [({ id := some 5, title := "a", content := "b" } : RawPost)],
          ∀ i, p.id = some i → i ≤ m) :=
  ⟨(get_next_id_spec []).1,
   ⟨rfl, (get_next_id_spec []).1 rfl⟩,
   ⟨by decide,
    (get_next_id_spec [({ id := some 5, title := "a", content := "b" } : RawPost)]).2.2
      (by decide) (by decide)⟩⟩

/-! ### Helper lemmas for insertion -/

theorem idsOf_map_toRaw (posts : List Post) :
    idsOf (posts.map Post.toRaw) = some (posts.map Post.id) := by
  induction posts with
  | nil => rfl
  | cons p ps ih => simp [idsOf, Post.toRaw, ih]

theorem get_next_id_toRaw (posts : List Post) :
    get_next_id (posts.map Post.toRaw) = Except.ok (nextIdVal posts) := by
  cases posts with
  | nil => rfl
  | cons p ps =>
    have h := idsOf_map_toRaw (p :: ps)
    simp only [List.map_cons] at h
    simp [get_next_id, h, nextIdVal]

theorem nextIdVal_gt (posts : List Post) : ∀ p ∈ posts, p.id < nextIdVal posts := by
  intro p hp
  cases posts with
  | nil => cases hp
  | cons q qs =>
    have h1 : p.id ∈ (q :: qs).map Post.id := List.mem_map_of_mem Post.id hp
    have h2 : p.id ≤ maxOf ((q :: qs).map Post.id) := maxOf_mem_le h1
    exact Int.lt_add_one_iff.mpr h2

theorem insertSeq_invariant (ops : List (String × String)) (posts : List Post) :
    (∀ j ∈ (insertSeq posts ops).2, ∀ p ∈ posts, p.id < j) ∧
    List.Pairwise (fun a b => a < b) (insertSeq posts ops).2 ∧
    ((posts.map Post.id).Nodup → ((insertSeq posts ops).1.map Post.id).Nodup) := by
  induction ops generalizing posts with
  | nil =>
    refine ⟨?_, List.Pairwise.nil, fun h => h⟩
    intro j hj
    cases hj
  | cons op rest ih =>
    obtain ⟨t, c⟩ := op
    have hmem : (⟨nextIdVal posts, t, c⟩ : Post) ∈ posts ++ [⟨nextIdVal posts, t, c⟩] :=
      List.mem_append_right posts (List.mem_singleton.mpr rfl)
    obtain ⟨iha, ihb, ihc⟩ := ih (posts ++ [⟨nextIdVal posts, t, c⟩])
    refine ⟨?_, ?_, ?_⟩
    · intro j hj p hp
      rcases List.mem_cons.mp hj with hj | hj
      · subst hj; exact nextIdVal_gt posts p hp
      · exact iha j hj p (List.mem_append_left _ hp)
    · refine List.pairwise_cons.mpr ⟨fun j hj => ?_, ihb⟩
      exact iha j hj _ hmem
    · intro hnd
      refine ihc ?_
      rw [List.map_append]
      refine List.Nodup.append hnd (List.nodup_singleton _) ?_
      intro x hx hx2
      obtain ⟨p, hp, hpx⟩ := List.mem_map.mp hx
      have : x = nextIdVal posts := by simpa using hx2
      subst this
      exact absurd hpx (ne_of_lt (nextIdVal_gt posts p hp))

/-- C1: starting from any store whose ids are unique, a sequence of
inserts (no deletions) returns strictly increasing ids, and the ids in
the store stay unique. -/
theorem insert_ids_strictly_increasing_unique (posts : List Post)
    (ops : List (String × String)) (h : (posts.map Post.id).Nodup) :
    List.Pairwise (fun a b => a < b) (insertSeq posts ops).2 ∧
    ((insertSeq posts ops).1.map Post.id).Nodup :=
  ⟨(insertSeq_invariant ops posts).2.1, (insertSeq_invariant ops posts).2.2 h⟩

/-- Witness for C1: two inserts on the seed store. -/
theorem insert_ids_strictly_increasing_unique_witness :
    (POSTS.map Post.id).Nodup ∧
    (List.Pairwise (fun a b => a < b) (insertSeq POSTS [("A", "B"), ("C", "D")]).2 ∧
      ((insertSeq POSTS [("A", "B"), ("C", "D")]).1.map Post.id).Nodup) :=
  ⟨by decide, insert_ids_strictly_increasing_unique POSTS [("A", "B"), ("C", "D")] (by decide)⟩

/-! ### Helper lemmas about field lookup and search -/

theorem postKey_title (p : Post) : postKey "title" p = some p.title := rfl

theorem postKey_content (p : Post) : postKey "content" p = some p.content := rfl

theorem postKey_unsupported {k : String} (h1 : k ≠ "title") (h2 : k ≠ "content") (p : Post) :
    postKey k p = none := by
  simp [postKey, h1, h2]

theorem keyVals_title (posts : List Post) :
    keyVals "title" posts = some (posts.map Post.title) := by
  induction posts with
  | nil => rfl
  | cons p ps ih => simp [keyVals, postKey, ih]

theorem keyVals_content (posts : List Post) :
    keyVals "content" posts = some (posts.map Post.content) := by
  induction posts with
  | nil => rfl
  | cons p ps ih => simp [keyVals, postKey, ih]

theorem keyVals_unsupported {k : String} (h1 : k ≠ "title") (h2 : k ≠ "content")
    {posts : List Post} (hne : posts ≠ []) : keyVals k posts = none := by
  cases posts with
  | nil => exact absurd rfl hne
  | cons p ps => simp [keyVals, postKey_unsupported h1 h2]

theorem find_str_falsy (posts : List Post) (s k : String) (h : s = "" ∨ k = "") :
    find_str posts s k = some [] := by
  rcases h with h | h <;> simp [find_str, h]

theorem find_str_title (posts : List Post) (s : String) (hs : s ≠ "") :
    find_str posts s "title" = some (posts.filter fun p => containsCI p.title s) := by
  simp [find_str, hs, keyVals_title, postKey]

theorem find_str_content (posts : List Post) (s : String) (hs : s ≠ "") :
    find_str posts s "content" = some (posts.filter fun p => containsCI p.content s) := by
  simp [find_str, hs, keyVals_content, postKey]

theorem find_str_unsupported (posts : List Post) (s k : String) (hs : s ≠ "") (hk : k ≠ "")
    (h1 : k ≠ "title") (h2 : k ≠ "content") (hne : posts ≠ []) :
    find_str posts s k = none := by
  simp [find_str, hs, hk, keyVals_unsupported h1 h2 hne]

/-- Counterexample to C2: on the seed store, a non-empty query over the
unsupported field `"foo"` raises a `KeyError` (embedded as `none`); it
does not return the empty sequence. -/
theorem find_str_unsupported_cex :
    find_str POSTS "x" "foo" = none ∧ find_str POSTS "x" "foo" ≠ some [] := by
  decide

/-- C2 (amended): `find_str` performs a case-insensitive substring
match over the field when it is `"title"` or `"content"`, returns the
empty sequence when the query or the field is the empty string, and
fails (raises) on any other field whenever the store is non-empty. -/
theorem find_str_spec (posts : List Post) (s k : String) :
    (s = "" ∨ k = "" → find_str posts s k = some []) ∧
    (s ≠ "" → k = "title" →
      find_str posts s k = some (posts.filter fun p => containsCI p.title s)) ∧
    (s ≠ "" → k = "content" →
      find_str posts s k = some (posts.filter fun p => containsCI p.content s)) ∧
    (s ≠ "" → k ≠ "" → k ≠ "title" → k ≠ "content" → posts ≠ [] →
      find_str posts s k = none) := by
  refine ⟨find_str_falsy posts s k, ?_, ?_, ?_⟩
  · intro hs hk
    subst hk
    exact find_str_title posts s hs
  · intro hs hk
    subst hk
    exact find_str_content posts s hs
  · intro hs hk h1 h2 hne
    exact find_str_unsupported posts s k hs hk h1 h2 hne

/-- Witness for C2 (amended): a successful title search and a failing
unsupported-field search on the seed store. -/
theorem find_str_spec_witness :
    (("post" : String) ≠ "" ∧
      find_str POSTS "post" "title" =
        some (POSTS.filter fun p => containsCI p.title "post")) ∧
    (("x" : String) ≠ "" ∧ ("foo" : String) ≠ "" ∧ POSTS ≠ [] ∧
      find_str POSTS "x" "foo" = none) :=
  ⟨⟨by decide, (find_str_spec POSTS "post" "title").2.1 (by decide) rfl⟩,
   ⟨by decide, by decide, by decide,
    (find_str_spec POSTS "x" "foo").2.2.2 (by decide) (by decide) (by decide) (by decide)
      (by decide)⟩⟩

theorem find_in_title_eq (posts : List Post) (t : String) (ht : t ≠ "") :
    find_in_title posts t = posts.filter fun p => containsCI p.title t := by
  simp [find_in_title, find_str_title posts t ht]

theorem find_in_content_eq (posts : List Post) (c : String) (hc : c ≠ "") :
    find_in_content posts c = posts.filter fun p => containsCI p.content c := by
  simp [find_in_content, find_str_content posts c hc]

/-! ### Helper lemmas about lookup, update and removal by id -/

theorem get_blog_post_by_id_none {posts : List Post} {pid : Int}
    (h : ∀ p ∈ posts, p.id ≠ pid) : get_blog_post_by_id posts pid = none := by
  induction posts with
  | nil => rfl
  | cons q qs ih =>
    have hq : q.id ≠ pid := h q (List.mem_cons_self q qs)
    simp only [get_blog_post_by_id, if_neg hq]
    exact ih fun p hp => h p (List.mem_cons_of_mem q hp)

theorem get_blog_post_by_id_first {pre : List Post} {p : Post} {suf : List Post} {pid : Int}
    (hpre : ∀ q ∈ pre, q.id ≠ pid) (hp : p.id = pid) :
    get_blog_post_by_id (pre ++ p :: suf) pid = some p := by
  induction pre with
  | nil => simp [get_blog_post_by_id, hp]
  | cons q qs ih =>
    have hq : q.id ≠ pid := hpre q (List.mem_cons_self q qs)
    simp only [List.cons_append, get_blog_post_by_id, if_neg hq]
    exact ih fun r hr => hpre r (List.mem_cons_of_mem q hr)

theorem updateFirst_append {pre : List Post} {p : Post} {suf : List Post} {pid : Int}
    (hpre : ∀ q ∈ pre, q.id ≠ pid) (hp : p.id = pid) (t c : String) :
    updateFirst (pre ++ p :: suf) pid t c =
      pre ++ { p with title := t, content := c } :: suf := by
  induction pre with
  | nil => simp [updateFirst, hp]
  | cons q qs ih =>
    have hq : q.id ≠ pid := hpre q (List.mem_cons_self q qs)
    simp only [List.cons_append, updateFirst, if_neg hq]
    exact congrArg (q :: ·) (ih fun r hr => hpre r (List.mem_cons_of_mem q hr))

theorem removeFirstEq_append {pre : List Post} {p : Post} {suf : List Post}
    (hpre : ∀ q ∈ pre, q ≠ p) :
    removeFirstEq (pre ++ p :: suf) p = pre ++ suf := by
  induction pre with
  | nil => simp [removeFirstEq]
  | cons q qs ih =>
    have hq : q ≠ p := hpre q (List.mem_cons_self q qs)
    simp only [List.cons_append, removeFirstEq, if_neg hq]
    exact congrArg (q :: ·) (ih fun r hr => hpre r (List.mem_cons_of_mem q hr))

/-- C5: `update_post` on an id absent from the store answers 404 and
leaves the store unchanged; on the first post carrying the id it
replaces exactly that post's title and content in place (same position,
same id), leaving every other post, the length and the order unchanged,
and answers 200 with the updated post. -/
theorem update_post_spec (posts : List Post) (pid : Int) (t c : String) :
    ((∀ p ∈ posts, p.id ≠ pid) →
      update_post posts pid t c =
        (Resp.msgR 404 ("Post with id= " ++ toString pid ++ " not found"), posts)) ∧
    (∀ pre p suf, posts = pre ++ p :: suf → (∀ q ∈ pre, q.id ≠ pid) → p.id = pid →
      update_post posts pid t c =
        (Resp.postR 200 { p with title := t, content := c },
         pre ++ { p with title := t, content := c } :: suf)) := by
  constructor
  · intro h
    simp [update_post, get_blog_post_by_id_none h]
  · intro pre p suf hdecomp hpre hp
    subst hdecomp
    simp [update_post, get_blog_post_by_id_first hpre hp, updateFirst_append hpre hp t c]

/-- Witness for C5: updating the absent id 5 and the present id 2 on
the seed store. -/
theorem update_post_spec_witness :
    ((∀ p ∈ POSTS, p.id ≠ (5 : Int)) ∧
      update_post POSTS 5 "T" "C" = (Resp.msgR 404 "Post with id= 5 not found", POSTS)) ∧
    (POSTS = [(⟨1, "First post", "This is the first post."⟩ : Post)] ++
        (⟨2, "Second post", "This is the second post."⟩ : Post) :: [] ∧
      update_post POSTS 2 "T" "C" =
        (Resp.postR 200 ⟨2, "T", "C"⟩,
         [(⟨1, "First post", "This is the first post."⟩ : Post)] ++ (⟨2, "T", "C"⟩ : Post) :: [])) :=
  ⟨⟨by decide, (update_post_spec POSTS 5 "T" "C").1 (by decide)⟩,
   ⟨rfl,
    (update_post_spec POSTS 2 "T" "C").2
      [⟨1, "First post", "This is the first post."⟩]
      ⟨2, "Second post", "This is the second post."⟩ [] rfl (by decide) rfl⟩⟩

/-- C6: `delete_post` on an id absent from the store answers 404 with
the not-found message and leaves the store unchanged; on the first post
carrying the id it removes exactly that post and answers 200 with the
success message. -/
theorem delete_post_spec (posts : List Post) (pid : Int) :
    ((∀ p ∈ posts, p.id ≠ pid) →
      delete_post posts pid =
        (Resp.msgR 404 ("Post with id= " ++ toString pid ++ " not found"), posts)) ∧
    (∀ pre p suf, posts = pre ++ p :: suf → (∀ q ∈ pre, q.id ≠ pid) → p.id = pid →
      delete_post posts pid =
        (Resp.msgR 200 ("Post with id " ++ toString pid ++ " has been deleted successfully."),
         pre ++ suf)) := by
  constructor
  · intro h
    simp [delete_post, get_blog_post_by_id_none h]
  · intro pre p suf hdecomp hpre hp
    subst hdecomp
    have hne : ∀ q ∈ pre, q ≠ p := fun q hq hqp => hpre q hq (by rw [hqp, hp])
    simp [delete_post, get_blog_post_by_id_first hpre hp, removeFirstEq_append hne]

/-- Witness for C6: deleting the absent id 3 and the present id 1 on
the seed store. -/
theorem delete_post_spec_witness :
    ((∀ p ∈ POSTS, p.id ≠ (3 : Int)) ∧
      delete_post POSTS 3 = (Resp.msgR 404 "Post with id= 3 not found", POSTS)) ∧
    (POSTS = ([] : List Post) ++
        (⟨1, "First post", "This is the first post."⟩ : Post) ::
          [(⟨2, "Second post", "This is the second post."⟩ : Post)] ∧
      delete_post POSTS 1 =
        (Resp.msgR 200 "Post with id 1 has been deleted successfully.",
         ([] : List Post) ++ [(⟨2, "Second post", "This is the second post."⟩ : Post)])) :=
  ⟨⟨by decide, (delete_post_spec POSTS 3).1 (by decide)⟩,
   ⟨rfl,
    (delete_post_spec POSTS 1).2 []
      ⟨1, "First post", "This is the first post."⟩
      [⟨2, "Second post", "This is the second post."⟩] rfl (by decide) rfl⟩⟩

/-! ### The search endpoint -/

/-- Counterexample to C8: a request that does supply the `title` query
parameter, with the empty string as value, is answered 404 with an
empty array, not 200 with the matches of the empty query. -/
theorem get_posts_search_supplied_empty_cex :
    (some "" : Option String) ≠ none ∧
    get_posts_search POSTS (some "") none = Resp.postsR 404 [] ∧
    get_posts_search POSTS (some "") none ≠ Resp.postsR 200 POSTS :=
  ⟨by decide, rfl, fun h => by
    have h2 : Resp.postsR 404 [] = Resp.postsR 200 POSTS := h
    have h3 : (404 : Nat) = 200 := by injection h2
    cases h3⟩

/-- C8 (amended): `GET /api/posts/search` answers 404 with an empty
array when neither `title` nor `content` is supplied with a non-empty
value, and 200 with the array of case-insensitive substring matches
when one is supplied non-empty (empty-valued parameters count as
absent). -/
theorem get_posts_search_spec (posts : List Post) (title content : Option String) :
    (truthy title = false → truthy content = false →
      get_posts_search posts title content = Resp.postsR 404 []) ∧
    (∀ t, title = some t → t ≠ "" →
      get_posts_search posts title content =
        Resp.postsR 200 (posts.filter fun p => containsCI p.title t)) ∧
    (truthy title = false → ∀ c, content = some c → c ≠ "" →
      get_posts_search posts title content =
        Resp.postsR 200 (posts.filter fun p => containsCI p.content c)) := by
  refine ⟨?_, ?_, ?_⟩
  · intro h1 h2
    simp [get_posts_search, h1, h2]
  · intro t ht hts
    subst ht
    have htr : truthy (some t) = true := by simp [truthy, hts]
    simp [get_posts_search, htr, find_in_title_eq posts t hts]
  · intro h1 c hc hcs
    subst hc
    have hcr : truthy (some c) = true := by simp [truthy, hcs]
    simp [get_posts_search, h1, hcr, find_in_content_eq posts c hcs]

/-- Witness for C8 (amended): a title search and a parameterless
request on the seed store. -/
theorem get_posts_search_spec_witness :
    ((some "post" : Option String) = some "post" ∧ ("post" : String) ≠ "" ∧
      get_posts_search POSTS (some "post") none =
        Resp.postsR 200 (POSTS.filter fun p => containsCI p.title "post")) ∧
    (truthy (none : Option String) = false ∧
      get_posts_search POSTS none none = Resp.postsR 404 []) :=
  ⟨⟨rfl, by decide, (get_posts_search_spec POSTS (some "post") none).2.1 "post" rfl (by decide)⟩,
   ⟨rfl, (get_posts_search_spec POSTS none none).1 rfl rfl⟩⟩

/-- C9: when both `title` and `content` are supplied non-empty, only
the title search is performed; the `content` parameter does not
influence the response. -/
theorem get_posts_search_title_precedence (posts : List Post) (t c : String)
    (ht : t ≠ "") (_hc : c ≠ "") :
    get_posts_search posts (some t) (some c) = get_posts_search posts (some t) none ∧
    get_posts_search posts (some t) (some c) =
      Resp.postsR 200 (posts.filter fun p => containsCI p.title t) := by
  have htr : truthy (some t) = true := by simp [truthy, ht]
  constructor
  · simp [get_posts_search, htr]
  · simp [get_posts_search, htr, find_in_title_eq posts t ht]

/-- Witness for C9: both parameters non-empty on the seed store; the
response matches the title query only. -/
theorem get_posts_search_title_precedence_witness :
    ("post" : String) ≠ "" ∧ ("second" : String) ≠ "" ∧
    (get_posts_search POSTS (some "post") (some "second") =
        get_posts_search POSTS (some "post") none ∧
      get_posts_search POSTS (some "post") (some "second") =
        Resp.postsR 200 (POSTS.filter fun p => containsCI p.title "post")) :=
  ⟨by decide, by decide,
   get_posts_search_title_precedence POSTS "post" "second" (by decide) (by decide)⟩

/-- C10: search parameters present with empty string values are falsy,
hence treated exactly like absent parameters: the response is 404 with
an empty array, not a 200 listing. -/
theorem get_posts_search_empty_values (posts : List Post) :
    get_posts_search posts (some "") (some "") = Resp.postsR 404 [] ∧
    get_posts_search posts (some "") (some "") = get_posts_search posts none none ∧
    ∀ ps, get_posts_search posts (some "") (some "") ≠ Resp.postsR 200 ps := by
  refine ⟨rfl, rfl, fun ps h => ?_⟩
  have h2 : Resp.postsR 404 [] = Resp.postsR 200 ps := h
  have : (404 : Nat) = 200 := by injection h2
  cases this

/-- Witness for C10: the no-match outcome on the seed store. -/
theorem get_posts_search_empty_values_witness :
    get_posts_search POSTS (some "") (some "") = Resp.postsR 404 [] :=
  (get_posts_search_empty_values POSTS).1

/-! ### The list endpoint -/

/-- Counterexample to C3: supplying `sort` without `direction` does not
produce a 400; the handler falls through and answers 200 with the
unsorted store. -/
theorem get_posts_sort_without_direction_cex :
    (some "title" : Option String) ≠ none ∧
    get_posts POSTS (some "title") none = Resp.postsR 200 POSTS ∧
    get_posts POSTS (some "title") none ≠ Resp.msgR 400 "Wrong sort or direction value" :=
  ⟨by decide, rfl, fun h => Resp.noConfusion h⟩

/-- C3 (amended): `sort` and `direction` are validated only when both
are supplied with non-empty values; then an invalid combination is
answered 400 with the fixed message and a valid one 200 with the sorted
list.  When either parameter is absent or empty, the handler answers
200 with the unsorted store (no 400). -/
theorem get_posts_spec (posts : List Post) (sort dir : Option String) :
    (truthy sort = false ∨ truthy dir = false →
      get_posts posts sort dir = Resp.postsR 200 posts) ∧
    (∀ s d, sort = some s → dir = some d → s ≠ "" → d ≠ "" →
      (¬((s = "title" ∨ s = "content") ∧ (d = "asc" ∨ d = "desc")) →
        get_posts posts sort dir = Resp.msgR 400 "Wrong sort or direction value") ∧
      ((s = "title" ∨ s = "content") → (d = "asc" ∨ d = "desc") →
        get_posts posts sort dir =
          Resp.postsR 200 ((sort_posts_by_ posts s (d == "desc")).getD []))) := by
  constructor
  · intro h
    rcases h with h | h <;> simp [get_posts, h]
  · intro s d hs hd hsne hdne
    subst hs
    subst hd
    have htr : truthy (some s) = true := by simp [truthy, hsne]
    have hdr : truthy (some d) = true := by simp [truthy, hdne]
    constructor
    · intro hbad
      cases hcase : ((s == "title" || s == "content") && (d == "asc" || d == "desc")) with
      | false => simp [get_posts, htr, hdr, hcase]
      | true =>
        exact absurd (by simpa [Bool.and_eq_true, Bool.or_eq_true, beq_iff_eq] using hcase) hbad
    · intro hsv hdv
      have hcase : ((s == "title" || s == "content") && (d == "asc" || d == "desc")) = true := by
        rcases hsv with h1 | h1 <;> rcases hdv with h2 | h2 <;> subst h1 <;> subst h2 <;> rfl
      simp [get_posts, htr, hdr, hcase]

/-- Witness for C3 (amended): the missing-direction, invalid-direction
(`direction=up`, the spec's own example) and valid-request cases on the
seed store. -/
theorem get_posts_spec_witness :
    ((truthy (none : Option String) = false ∨ truthy (none : Option String) = false) ∧
      get_posts POSTS (some "title") none = Resp.postsR 200 POSTS) ∧
    (("title" : String) ≠ "" ∧ ("up" : String) ≠ "" ∧
      ¬((("title" : String) = "title" ∨ ("title" : String) = "content") ∧
          (("up" : String) = "asc" ∨ ("up" : String) = "desc")) ∧
      get_posts POSTS (some "title") (some "up") =
        Resp.msgR 400 "Wrong sort or direction value") ∧
    (get_posts POSTS (some "title") (some "asc") =
      Resp.postsR 200 ((sort_posts_by_ POSTS "title" ("asc" == "desc")).getD [])) :=
  ⟨⟨Or.inr rfl, (get_posts_spec POSTS (some "title") none).1 (Or.inr rfl)⟩,
   ⟨by decide, by decide, by decide,
    ((get_posts_spec POSTS (some "title") (some "up")).2 "title" "up" rfl rfl (by decide)
        (by decide)).1 (by decide)⟩,
   ((get_posts_spec POSTS (some "title") (some "asc")).2 "title" "asc" rfl rfl (by decide)
       (by decide)).2 (Or.inl rfl) (Or.inl rfl)⟩

/-! ### Sorting: order and stability -/

theorem sort_posts_by_eq_asc (posts : List Post) (k : String)
    (hk : k = "title" ∨ k = "content") :
    sort_posts_by_ posts k false =
      some (posts.insertionSort fun a b => postVal k a ≤ postVal k b) := by
  rcases hk with hk | hk <;> subst hk <;>
    simp [sort_posts_by_, keyVals_title, keyVals_content, postVal]

theorem sort_posts_by_eq_desc (posts : List Post) (k : String)
    (hk : k = "title" ∨ k = "content") :
    sort_posts_by_ posts k true =
      some (posts.insertionSort fun a b => postVal k b ≤ postVal k a) := by
  rcases hk with hk | hk <;> subst hk <;>
    simp [sort_posts_by_, keyVals_title, keyVals_content, postVal]

theorem filter_orderedInsert_pos {α : Type} (r : α → α → Prop) [DecidableRel r]
    (q : α → Bool) (a : α) (ha : q a = true) (h : ∀ b, ¬ r a b → q b = false)
    (l : List α) :
    (List.orderedInsert r a l).filter q = a :: l.filter q := by
  induction l with
  | nil => simp [ha]
  | cons b l ih =>
    by_cases hr : r a b
    · simp [List.orderedInsert, hr, List.filter_cons, ha]
    · have hb : q b = false := h b hr
      simp only [List.orderedInsert, if_neg hr, List.filter_cons, hb]
      simpa [hb, List.filter_cons] using ih

theorem filter_orderedInsert_neg {α : Type} (r : α → α → Prop) [DecidableRel r]
    (q : α → Bool) (a : α) (ha : q a = false) (l : List α) :
    (List.orderedInsert r a l).filter q = l.filter q := by
  induction l with
  | nil => simp [ha]
  | cons b l ih =>
    by_cases hr : r a b
    · simp [List.orderedInsert, hr, List.filter_cons, ha]
    · cases hb : q b <;> simp [List.orderedInsert, if_neg hr, List.filter_cons, hb, ih]

theorem filter_insertionSort {α : Type} (r : α → α → Prop) [DecidableRel r]
    (q : α → Bool) (h : ∀ a b, q a = true → ¬ r a b → q b = false) (l : List α) :
    (l.insertionSort r).filter q = l.filter q := by
  induction l with
  | nil => rfl
  | cons a l ih =>
    simp only [List.insertionSort]
    cases ha : q a with
    | true =>
      rw [filter_orderedInsert_pos r q a ha (fun b hb => h a b ha hb), ih]
      simp [List.filter_cons, ha]
    | false =>
      rw [filter_orderedInsert_neg r q a ha, ih]
      simp [List.filter_cons, ha]

/-- C7: for the fields the handler passes, `sort_posts_by_` succeeds
and returns a permutation of the store sorted lexicographically by the
field (descending when `is_desc`), and the sort is stable: for every
field value, the posts carrying that value appear in the stored order.
The stored list itself is a value in this embedding, so it is not
mutated: the result is a new list. -/
theorem sort_posts_by_spec (posts : List Post) (k : String) (d : Bool)
    (hk : k = "title" ∨ k = "content") :
    ∃ l, sort_posts_by_ posts k d = some l ∧
      l.Perm posts ∧
      (d = false → List.Pairwise (fun a b => postVal k a ≤ postVal k b) l) ∧
      (d = true → List.Pairwise (fun a b => postVal k b ≤ postVal k a) l) ∧
      ∀ v : String,
        (l.filter fun p => postVal k p == v) = posts.filter fun p => postVal k p == v := by
  cases d with
  | false =>
    refine ⟨_, sort_posts_by_eq_asc posts k hk, List.perm_insertionSort _ posts, ?_, ?_, ?_⟩
    · intro _
      haveI : IsTotal Post fun a b : Post => postVal k a ≤ postVal k b :=
        ⟨fun _ _ => le_total _ _⟩
      haveI : IsTrans Post fun a b : Post => postVal k a ≤ postVal k b :=
        ⟨fun _ _ _ => le_trans⟩
      exact List.sorted_insertionSort _ posts
    · intro h
      cases h
    · intro v
      refine filter_insertionSort _ _ (fun a b ha hr => ?_) posts
      have hav : postVal k a = v := by simpa using ha
      have hlt : postVal k b < postVal k a := not_le.mp hr
      simp only [beq_eq_false_iff_ne, ne_eq]
      intro hbv
      rw [hbv, hav] at hlt
      exact lt_irrefl v hlt
  | true =>
    refine ⟨_, sort_posts_by_eq_desc posts k hk, List.perm_insertionSort _ posts, ?_, ?_, ?_⟩
    · intro h
      cases h
    · intro _
      haveI : IsTotal Post fun a b : Post => postVal k b ≤ postVal k a :=
        ⟨fun _ _ => le_total _ _⟩
      haveI : IsTrans Post fun a b : Post => postVal k b ≤ postVal k a :=
        ⟨fun _ _ _ hab hbc => le_trans hbc hab⟩
      exact List.sorted_insertionSort _ posts
    · intro v
      refine filter_insertionSort _ _ (fun a b ha hr => ?_) posts
      have hav : postVal k a = v := by simpa using ha
      have hlt : postVal k a < postVal k b := not_le.mp hr
      simp only [beq_eq_false_iff_ne, ne_eq]
      intro hbv
      rw [hbv, hav] at hlt
      exact lt_irrefl v hlt

/-- Witness for C7: descending title sort of the seed store, including
the spec's example output `["Second post", "First post"]`. -/
theorem sort_posts_by_spec_witness :
    (("title" : String) = "title" ∨ ("title" : String) = "content") ∧
    (∃ l, sort_posts_by_ POSTS "title" true = some l ∧
      l.Perm POSTS ∧
      (true = false → List.Pairwise (fun a b => postVal "title" a ≤ postVal "title" b) l) ∧
      (true = true → List.Pairwise (fun a b => postVal "title" b ≤ postVal "title" a) l) ∧
      ∀ v : String,
        (l.filter fun p => postVal "title" p == v) =
          POSTS.filter fun p => postVal "title" p == v) ∧
    sort_posts_by_ POSTS "title" true =
      some [⟨2, "Second post", "This is the second post."⟩,
            ⟨1, "First post", "This is the first post."⟩] :=
  ⟨Or.inl rfl, sort_posts_by_spec POSTS "title" true (Or.inl rfl), by
    have h : ¬ ("Second post" : String) ≤ "First post" := by
      rw [String.le_iff_toList_le]
      decide
    simp [sort_posts_by_, keyVals, postKey, POSTS, List.insertionSort, List.orderedInsert, h]⟩
